import Mathlib

/-
Shallow embedding of the Anti-Cursing-AI pipeline (src/model.py) and proofs
of the spec claims about it.

Modelling conventions:
- An AudioBuffer is a `List Int`: one amplitude value per millisecond
  position (pydub addresses and slices AudioSegments by milliseconds; a
  sample value 0 is zero amplitude / silence).
- Python strings are `List Char`; Python `str.split`, `str.strip`,
  `str.lower` and the `re.sub(r'[^\w\s]', '', _)` filter are embedded
  directly (the `\w` class is taken in its ASCII reading: alphanumeric or
  underscore, which is all the pipeline feeds it).
- Recognizer timestamps (Python floats, in seconds) are embedded as exact
  rationals; Python `int()` is truncation toward zero (`pyInt`).
- External collaborators (the whisper model, ffmpeg, the filesystem) are
  parameters: ffmpeg success is an oracle `ok : String → String → Bool`,
  the filesystem is a `List String` of existing paths, and stage failures
  in `main` are a vector of booleans saying which stage raises.
-/

/- Section: the Audio Censor Engine (model.py, blank_audio_word_level,
   lines 55-73). A SilenceSpan is a pair of millisecond offsets; the
   pipeline only ever produces nonnegative offsets (both bounds are
   `int(t*1000) + 300` with `t ≥ 0`), so they are embedded as `Nat`. -/

structure SilenceSpan where
  start_ms : Nat
  end_ms : Nat
deriving DecidableEq, Repr

/-- Lines 68-69: `if start_ms > end_ms: start_ms = end_ms`. -/
def clampedStart (s : SilenceSpan) : Nat :=
  if s.end_ms < s.start_ms then s.end_ms else s.start_ms

/-- Line 72: `audio[:start_ms] + AudioSegment.silent(duration=(end_ms - start_ms)) + audio[end_ms:]`,
with the clamp of lines 68-69 applied to `start_ms` first. -/
def applySpan (audio : List Int) (s : SilenceSpan) : List Int :=
  audio.take (clampedStart s) ++ List.replicate (s.end_ms - clampedStart s) 0 ++ audio.drop s.end_ms

/-- The loop of lines 60-72, restricted to the spans that survive the
curse-word filter: each span is applied in order to the current buffer. -/
def blankSpans (audio : List Int) (spans : List SilenceSpan) : List Int :=
  spans.foldl applySpan audio

/-- Position `i` lies inside the clamped half-open interval of span `s`. -/
def inSpan (i : Nat) (s : SilenceSpan) : Prop :=
  clampedStart s ≤ i ∧ i < s.end_ms

instance (i : Nat) (s : SilenceSpan) : Decidable (inSpan i s) := by
  unfold inSpan
  exact inferInstance

lemma clampedStart_le (s : SilenceSpan) : clampedStart s ≤ s.end_ms := by
  unfold clampedStart
  split <;> omega

lemma length_applySpan (a : List Int) (s : SilenceSpan) :
    (applySpan a s).length =
      min (clampedStart s) a.length + (s.end_ms - clampedStart s) + (a.length - s.end_ms) := by
  simp [applySpan]
  omega

lemma le_length_applySpan (a : List Int) (s : SilenceSpan) :
    a.length ≤ (applySpan a s).length := by
  have h := clampedStart_le s
  rw [length_applySpan]
  omega

lemma applySpan_getElem?_of_not_inSpan (a : List Int) (s : SilenceSpan) (i : Nat)
    (hi : i < a.length) (h : ¬ inSpan i s) : (applySpan a s)[i]? = a[i]? := by
  have hcs := clampedStart_le s
  have h2 : i < clampedStart s ∨ s.end_ms ≤ i := by
    unfold inSpan at h
    omega
  unfold applySpan
  rcases h2 with h2 | h2
  · rw [List.getElem?_append_left (by simp; omega),
      List.getElem?_append_left (by simp; omega),
      List.getElem?_take_of_lt h2]
  · rw [List.getElem?_append_right (by simp; omega)]
    rw [List.getElem?_drop]
    congr 1
    simp
    omega

lemma applySpan_getElem?_of_inSpan (a : List Int) (s : SilenceSpan) (i : Nat)
    (hsp : inSpan i s) (hi : i < (applySpan a s).length) : (applySpan a s)[i]? = some 0 := by
  have hcs := clampedStart_le s
  obtain ⟨h1, h2⟩ := hsp
  rw [length_applySpan] at hi
  unfold applySpan
  rw [List.getElem?_append_left (by simp; omega),
    List.getElem?_append_right (by simp; omega)]
  rw [List.getElem?_replicate]
  rw [if_pos (by simp; omega)]

lemma applySpan_getElem?_of_new (a : List Int) (s : SilenceSpan) (i : Nat)
    (h1 : a.length ≤ i) (h2 : i < (applySpan a s).length) : (applySpan a s)[i]? = some 0 := by
  have hcs := clampedStart_le s
  rw [length_applySpan] at h2
  unfold applySpan
  rw [List.getElem?_append_left (by simp; omega),
    List.getElem?_append_right (by simp; omega)]
  rw [List.getElem?_replicate]
  rw [if_pos (by simp; omega)]

lemma applySpan_preserves_zero (a : List Int) (s : SilenceSpan) (i : Nat)
    (h0 : a[i]? = some 0) : (applySpan a s)[i]? = some 0 := by
  have hi : i < a.length := by
    rcases List.getElem?_eq_some_iff.mp h0 with ⟨h, _⟩
    exact h
  by_cases hsp : inSpan i s
  · exact applySpan_getElem?_of_inSpan a s i hsp (lt_of_lt_of_le hi (le_length_applySpan a s))
  · rw [applySpan_getElem?_of_not_inSpan a s i hi hsp]
    exact h0

lemma le_length_blankSpans (spans : List SilenceSpan) (a : List Int) :
    a.length ≤ (blankSpans a spans).length := by
  induction spans generalizing a with
  | nil => simp [blankSpans]
  | cons s rest ih =>
    calc a.length ≤ (applySpan a s).length := le_length_applySpan a s
      _ ≤ (blankSpans (applySpan a s) rest).length := ih (applySpan a s)

lemma blankSpans_getElem?_of_not_inSpan (spans : List SilenceSpan) (a : List Int) (i : Nat)
    (hi : i < a.length) (h : ∀ s ∈ spans, ¬ inSpan i s) :
    (blankSpans a spans)[i]? = a[i]? := by
  induction spans generalizing a with
  | nil => simp [blankSpans]
  | cons s rest ih =>
    calc (blankSpans a (s :: rest))[i]?
        = (blankSpans (applySpan a s) rest)[i]? := rfl
      _ = (applySpan a s)[i]? :=
          ih (applySpan a s) (lt_of_lt_of_le hi (le_length_applySpan a s))
            (fun t ht => h t (by simp [ht]))
      _ = a[i]? := applySpan_getElem?_of_not_inSpan a s i hi (h s (by simp))

lemma blankSpans_getElem?_zero (spans : List SilenceSpan) (a : List Int) (i : Nat)
    (hlt : i < (blankSpans a spans).length)
    (h : (∃ s ∈ spans, inSpan i s) ∨ a.length ≤ i ∨ a[i]? = some 0) :
    (blankSpans a spans)[i]? = some 0 := by
  induction spans generalizing a with
  | nil =>
    simp only [blankSpans, List.foldl_nil] at hlt ⊢
    rcases h with ⟨s, hs, _⟩ | h | h
    · exact absurd hs (List.not_mem_nil s)
    · omega
    · exact h
  | cons s rest ih =>
    have hlt2 : i < (blankSpans (applySpan a s) rest).length := hlt
    apply ih (applySpan a s) hlt2
    rcases h with ⟨s0, hs0, hin⟩ | h | h
    · rcases List.mem_cons.mp hs0 with heq | hs0r
      · rw [heq] at hin
        by_cases hlen : i < (applySpan a s).length
        · exact Or.inr (Or.inr (applySpan_getElem?_of_inSpan a s i hin hlen))
        · exact Or.inr (Or.inl (by omega))
      · exact Or.inl ⟨s0, hs0r, hin⟩
    · by_cases hlen : i < (applySpan a s).length
      · exact Or.inr (Or.inr (applySpan_getElem?_of_new a s i h hlen))
      · exact Or.inr (Or.inl (by omega))
    · exact Or.inr (Or.inr (applySpan_preserves_zero a s i h))

/- Section: the Transcript Normalizer and Denylist Matcher
   (model.py, lines 61-64). -/

/-- Python `str.strip()`: drop whitespace from both ends. -/
def pyStrip (s : List Char) : List Char :=
  ((s.dropWhile Char.isWhitespace).reverse.dropWhile Char.isWhitespace).reverse

/-- ASCII reading of the regex class `\w`: alphanumeric or underscore. -/
def isWordChar (c : Char) : Bool :=
  c.isAlphanum || c == '_'

/-- Lines 61-62: `word = word_data['text'].strip().lower()` followed by
`re.sub(r'[^\w\s]', '', word)`: strip, lower-case, and keep only word
characters and whitespace. -/
def normalizeTok (s : List Char) : List Char :=
  ((pyStrip s).map Char.toLower).filter (fun c => isWordChar c || c.isWhitespace)

/-- Line 64: `any(curse_word in word_cleaned for curse_word in curse_words)`.
Python `in` on strings is contiguous-substring (infix) containment. -/
def matchesCurse (word_cleaned : List Char) (curse_words : List (List Char)) : Bool :=
  curse_words.any (fun curse_word => decide (curse_word <:+: word_cleaned))

/- Section: words and the Timestamp Adjuster (model.py, lines 46-52 and
   65-66). Timestamps are seconds as exact rationals. -/

/-- A word as produced by the external recognizer: its text and its raw
start and end times in seconds. The `end` field is named `stop` here
because `end` is a Lean keyword. -/
structure WhisperWord where
  word : List Char
  start : ℚ
  stop : ℚ
deriving DecidableEq

/-- A word record as built by `transcribe_audio_with_word_timestamps`:
`{'text': ..., 'timestamp': (adjusted_start, adjusted_end)}`. -/
structure PyWord where
  text : List Char
  timestamp : ℚ × ℚ
deriving DecidableEq

/-- Lines 47-48: `adjusted_start = max(0, word.start - 0.1)` and
`adjusted_end = word.end + 0.1`. -/
def adjustTimestamps (w : WhisperWord) : ℚ × ℚ :=
  (max 0 (w.start - 1/10), w.stop + 1/10)

/-- Lines 49-52: the record appended to `word_segments` for one word. -/
def transcribeWord (w : WhisperWord) : PyWord :=
  ⟨w.word, adjustTimestamps w⟩

/-- Python `int()`: truncation toward zero. -/
def pyInt (q : ℚ) : ℤ :=
  if q < 0 then ⌈q⌉ else ⌊q⌋

/-- Lines 65-66: `start_ms = int(t0 * 1000) + 300` and
`end_ms = int(t1 * 1000) + 300`. The pipeline only feeds nonnegative
timestamps (line 47 takes a max with 0), so both bounds are at least 300
and `Int.toNat` is the identity embedding into the `Nat`-valued span. -/
def wordSpan (wd : PyWord) : SilenceSpan :=
  ⟨(pyInt (wd.timestamp.1 * 1000) + 300).toNat, (pyInt (wd.timestamp.2 * 1000) + 300).toNat⟩

/-- Lines 55-73, `blank_audio_word_level`: for each word, normalize its
text, and when some curse word occurs in it, splice a silent segment over
the word's shifted millisecond span. -/
def blank_audio_word_level (audio : List Int) (words : List PyWord)
    (curse_words : List (List Char)) : List Int :=
  words.foldl
    (fun acc wd =>
      if matchesCurse (normalizeTok wd.text) curse_words then applySpan acc (wordSpan wd)
      else acc)
    audio

/- Section: denylist loading (model.py, lines 9-12):
   `CURSE_WORDS = curses.split('\n')`. -/

/-- Python `str.split('\n')`: split on every newline, keeping empty
pieces (so a trailing newline or a blank line yields an empty entry, and
the split of the empty string is `[[]]`). -/
def splitNl (cs : List Char) : List (List Char) :=
  match cs with
  | [] => [[]]
  | c :: rest =>
    if c = '\n' then [] :: splitNl rest
    else
      match splitNl rest with
      | [] => [[c]]
      | t :: ts => (c :: t) :: ts

/- Section: the Mux/Encode Negotiator (model.py, overlay_clean_audio,
   lines 81-110). The external encoder is an oracle
   `ok : String → String → Bool` giving the exit status of the ffmpeg
   invocation for a (video codec, audio codec) pair. The returned pair of
   the model is (attempted invocations in order, successful pair or none);
   `none` models the final `raise RuntimeError` after exhaustion, and a
   `some` result models the `os.rename` of that pair's temporary output
   to the final path followed by `return`. -/

def audio_encoders : List String := ["aac", "libmp3lame", "libopus"]

def video_encoders : List String := ["copy", "libx264"]

/-- The inner loop of lines 87-109: try each audio codec with a fixed
video codec, stopping at the first success. -/
def tryAudioCodecs (ok : String → String → Bool) (video_codec : String) :
    List String → List (String × String) × Option (String × String)
  | [] => ([], none)
  | audio_codec :: rest =>
    if ok video_codec audio_codec then
      ([(video_codec, audio_codec)], some (video_codec, audio_codec))
    else
      let r := tryAudioCodecs ok video_codec rest
      ((video_codec, audio_codec) :: r.1, r.2)

/-- The outer loop of lines 86-109: advance to the next video codec only
after every audio codec failed with the current one. -/
def tryVideoCodecs (ok : String → String → Bool) :
    List String → List (String × String) × Option (String × String)
  | [] => ([], none)
  | video_codec :: rest =>
    let r := tryAudioCodecs ok video_codec audio_encoders
    match r.2 with
    | some p => (r.1, some p)
    | none =>
      let r2 := tryVideoCodecs ok rest
      (r.1 ++ r2.1, r2.2)

/-- Lines 81-110, `overlay_clean_audio`, as a function of the encoder
oracle. -/
def overlay_clean_audio (ok : String → String → Bool) :
    List (String × String) × Option (String × String) :=
  tryVideoCodecs ok video_encoders

/-- The Cartesian product of the codec lists in the order the nested
loops of lines 86-87 visit it. -/
def codecPairs : List (String × String) :=
  [("copy", "aac"), ("copy", "libmp3lame"), ("copy", "libopus"),
   ("libx264", "aac"), ("libx264", "libmp3lame"), ("libx264", "libopus")]

/- Section: main and cleanup (model.py, lines 112-135). The filesystem is
   a list of existing paths; each stage of `main` may raise, recorded by a
   boolean flag, and failures abort the `try` block at that point. -/

/-- Lines 112-117, `cleanup_files`: for one path, `if os.path.exists(p):
os.remove(p)`. -/
def removeFile (fs : List String) (p : String) : List String :=
  if p ∈ fs then fs.filter (fun q => q != p) else fs

/-- Lines 112-117, `cleanup_files` over its argument list. -/
def cleanup_files (fs : List String) (paths : List String) : List String :=
  paths.foldl removeFile fs

/-- Which stages of `main` raise an exception when reached. -/
structure StageFails where
  extract_fails : Bool
  transcribe_fails : Bool
  save_fails : Bool
  blank_fails : Bool
  export_fails : Bool
  overlay_fails : Bool

/-- Lines 119-135, `main`: run the stages of the `try` block in order,
stopping at the first raising stage; each stage that completes adds the
file it writes; the `finally` block then runs `cleanup_files` on the two
working-audio temp paths. Returns the final filesystem and whether the
run completed without an exception. -/
def pyMain (env : StageFails) (base : String) (fs0 : List String) : List String × Bool :=
  let audio_path := base ++ "_extracted_audio.wav"
  let clean_audio_path := base ++ "_clean_audio.wav"
  let output_video_path := base ++ "_cleaned.mp4"
  let transcript_path := base ++ "_word_transcript.json"
  let body : List String × Bool :=
    if env.extract_fails then (fs0, false) else
    let fs1 := audio_path :: fs0
    if env.transcribe_fails then (fs1, false) else
    if env.save_fails then (fs1, false) else
    let fs2 := transcript_path :: fs1
    if env.blank_fails then (fs2, false) else
    if env.export_fails then (fs2, false) else
    let fs3 := clean_audio_path :: fs2
    if env.overlay_fails then (fs3, false) else
    (output_video_path :: fs3, true)
  (cleanup_files body.1 [audio_path, clean_audio_path], body.2)

/- Helper lemmas tying blank_audio_word_level to the span-application
   core and recording when span application preserves the length. -/

lemma blank_audio_word_level_eq_blankSpans (audio : List Int) (words : List PyWord)
    (curse_words : List (List Char)) :
    blank_audio_word_level audio words curse_words =
      blankSpans audio
        ((words.filter (fun wd => matchesCurse (normalizeTok wd.text) curse_words)).map
          wordSpan) := by
  induction words generalizing audio with
  | nil => rfl
  | cons w ws ih =>
    cases hm : matchesCurse (normalizeTok w.text) curse_words with
    | true =>
      simp only [blank_audio_word_level, List.foldl_cons, List.filter_cons, hm, if_pos,
        List.map_cons] at ih ⊢
      exact ih (applySpan audio (wordSpan w))
    | false =>
      simp only [blank_audio_word_level, List.foldl_cons, List.filter_cons, hm,
        Bool.false_eq_true, if_false] at ih ⊢
      exact ih audio

lemma length_blankSpans_of_fit (spans : List SilenceSpan) (a : List Int)
    (h : ∀ s ∈ spans, s.end_ms ≤ a.length) : (blankSpans a spans).length = a.length := by
  induction spans generalizing a with
  | nil => rfl
  | cons s rest ih =>
    have h1 : (applySpan a s).length = a.length := by
      have hc := clampedStart_le s
      have h2 := h s (by simp)
      rw [length_applySpan]
      omega
    calc (blankSpans a (s :: rest)).length
        = (blankSpans (applySpan a s) rest).length := rfl
      _ = (applySpan a s).length :=
          ih (applySpan a s) (fun t ht => by rw [h1]; exact h t (by simp [ht]))
      _ = a.length := h1

/-- C1: for every audio buffer and every list of silence spans, the buffer
produced by the Audio Censor Engine has all samples inside each clamped
span [start_ms, end_ms) equal to zero amplitude, and all samples outside
the union of the clamped spans identical to the corresponding samples of
the source buffer; blank_audio_word_level is exactly this engine applied
to the spans of the matched words. -/
theorem silence_correctness_c1 (audio : List Int) (spans : List SilenceSpan) (i : Nat) :
    ((∃ s ∈ spans, inSpan i s) → i < (blankSpans audio spans).length →
      (blankSpans audio spans)[i]? = some 0)
    ∧ ((∀ s ∈ spans, ¬ inSpan i s) → i < audio.length →
      (blankSpans audio spans)[i]? = audio[i]?)
    ∧ (∀ (words : List PyWord) (curse_words : List (List Char)),
        blank_audio_word_level audio words curse_words =
          blankSpans audio
            ((words.filter (fun wd => matchesCurse (normalizeTok wd.text) curse_words)).map
              wordSpan)) :=
  ⟨fun hsp hlt => blankSpans_getElem?_zero spans audio i hlt (Or.inl hsp),
   fun hout hi => blankSpans_getElem?_of_not_inSpan spans audio i hi hout,
   fun words curse_words => blank_audio_word_level_eq_blankSpans audio words curse_words⟩

theorem silence_correctness_c1_witness :
    (blankSpans [5, 6, 7, 8] [⟨1, 3⟩])[2]? = some 0
    ∧ (blankSpans [5, 6, 7, 8] [⟨1, 3⟩])[0]? = ([5, 6, 7, 8] : List Int)[0]? :=
  ⟨(silence_correctness_c1 [5, 6, 7, 8] [⟨1, 3⟩] 2).1 (by decide) (by decide),
   (silence_correctness_c1 [5, 6, 7, 8] [⟨1, 3⟩] 0).2.1 (by decide) (by decide)⟩

/-- C2: the matcher returns true iff some denylist entry is a substring of
the token; with "damn" in the denylist the tokens "damn", "damned" and
"goddamn" match while "dam" does not, and "dam" matches as soon as "dam"
itself is listed. -/
theorem matcher_substring_c2 :
    (∀ (t : List Char) (D : List (List Char)), matchesCurse t D = true ↔ ∃ c ∈ D, c <:+: t)
    ∧ matchesCurse "damn".toList ["damn".toList] = true
    ∧ matchesCurse "damned".toList ["damn".toList] = true
    ∧ matchesCurse "goddamn".toList ["damn".toList] = true
    ∧ matchesCurse "dam".toList ["damn".toList] = false
    ∧ (∀ D : List (List Char), "dam".toList ∈ D → matchesCurse "dam".toList D = true) := by
  refine ⟨?_, by decide, by decide, by decide, by decide, ?_⟩
  · intro t D
    simp [matchesCurse]
  · intro D hD
    simp only [matchesCurse, List.any_eq_true, decide_eq_true_eq]
    exact ⟨_, hD, List.infix_refl _⟩

theorem matcher_substring_c2_witness :
    matchesCurse "dam".toList ["dam".toList] = true :=
  matcher_substring_c2.2.2.2.2.2 ["dam".toList] (by decide)

/-- C3: for every matched word the pipeline pads the interval to
[max(0, start - 0.1), end + 0.1] seconds and converts to milliseconds
adding a fixed forward shift of 300 ms to both bounds; the word
(text "damn", start 10.00, end 10.40) yields the padded seconds interval
[9.90, 10.50] and the shifted millisecond interval [10200, 10800]. -/
theorem timestamp_adjust_c3 :
    (∀ w : WhisperWord, adjustTimestamps w = (max 0 (w.start - 1/10), w.stop + 1/10))
    ∧ adjustTimestamps ⟨"damn".toList, 10, 52/5⟩ = (99/10, 21/2)
    ∧ (∀ wd : PyWord, wordSpan wd =
        ⟨(pyInt (wd.timestamp.1 * 1000) + 300).toNat,
         (pyInt (wd.timestamp.2 * 1000) + 300).toNat⟩)
    ∧ wordSpan (transcribeWord ⟨"damn".toList, 10, 52/5⟩) = ⟨10200, 10800⟩ := by
  refine ⟨fun w => rfl, ?_, fun wd => rfl, ?_⟩
  · unfold adjustTimestamps
    norm_num
  · unfold transcribeWord wordSpan adjustTimestamps pyInt
    norm_num
    exact ⟨rfl, rfl⟩

/-- C4: when a computed span has start_ms greater than end_ms, the engine
clamps start_ms to end_ms and applying the degenerate zero-length span
leaves the buffer unchanged. -/
theorem clamp_invariant_c4 (audio : List Int) (s : SilenceSpan) (h : s.end_ms < s.start_ms) :
    clampedStart s = s.end_ms ∧ applySpan audio s = audio := by
  have hc : clampedStart s = s.end_ms := by
    unfold clampedStart
    rw [if_pos h]
  refine ⟨hc, ?_⟩
  unfold applySpan
  rw [hc]
  simp

theorem clamp_invariant_c4_witness :
    clampedStart ⟨9, 2⟩ = 2 ∧ applySpan [3, 1, 4] ⟨9, 2⟩ = [3, 1, 4] :=
  clamp_invariant_c4 [3, 1, 4] ⟨9, 2⟩ (by decide)

/-- C5, counterexample: for the two-sample buffer [1, 2] and the span
[1, 5), the output of the engine is [1, 0, 0, 0, 0], which extends past
the source buffer's end, refuting the claim that the resulting buffer
never extends past it. -/
theorem span_out_of_range_c5_counterexample :
    ¬ ((applySpan [1, 2] ⟨1, 5⟩).length ≤ ([1, 2] : List Int).length) := by decide

/-- C5, amended: applying a span whose end_ms lies beyond the buffer
length never fails (the slices are clamped to the buffer by the slice
semantics and the result is total), and the buffer never loses samples;
but the inserted silent segment always has length end_ms - clampedStart,
so the result extends past the source buffer's end exactly when the span
does not fit; when end_ms is within the buffer the length is preserved. -/
theorem span_out_of_range_c5 (audio : List Int) (s : SilenceSpan) :
    (applySpan audio s).length =
      min (clampedStart s) audio.length + (s.end_ms - clampedStart s)
        + (audio.length - s.end_ms)
    ∧ audio.length ≤ (applySpan audio s).length
    ∧ (s.end_ms ≤ audio.length → (applySpan audio s).length = audio.length) := by
  refine ⟨length_applySpan audio s, le_length_applySpan audio s, fun h => ?_⟩
  have hc := clampedStart_le s
  rw [length_applySpan]
  omega

theorem span_out_of_range_c5_witness :
    (applySpan [1, 2, 3] ⟨1, 2⟩).length = ([1, 2, 3] : List Int).length :=
  (span_out_of_range_c5 [1, 2, 3] ⟨1, 2⟩).2.2 (by decide)

/-- C9, counterexample: on the empty buffer with the single span [1, 3),
one application yields [0, 0] but a second application yields [0, 0, 0],
so re-applying a span list to the already-censored buffer is not always
the identity. -/
theorem idempotence_c9_counterexample :
    blankSpans (blankSpans [] [⟨1, 3⟩]) [⟨1, 3⟩] ≠ blankSpans [] [⟨1, 3⟩] := by decide

/-- C9, amended: whenever every span fits inside the buffer (end_ms at
most the buffer length), re-applying the same span list to the
already-censored buffer produces a buffer identical to the once-censored
one; already-silent regions stay silent. -/
theorem idempotence_c9 (audio : List Int) (spans : List SilenceSpan)
    (h : ∀ s ∈ spans, s.end_ms ≤ audio.length) :
    blankSpans (blankSpans audio spans) spans = blankSpans audio spans := by
  have hlen : (blankSpans audio spans).length = audio.length :=
    length_blankSpans_of_fit spans audio h
  have h2 : ∀ s ∈ spans, s.end_ms ≤ (blankSpans audio spans).length := by
    rw [hlen]
    exact h
  have hlen2 : (blankSpans (blankSpans audio spans) spans).length
      = (blankSpans audio spans).length :=
    length_blankSpans_of_fit spans _ h2
  apply List.ext_getElem?
  intro n
  by_cases hn : n < audio.length
  · by_cases hsp : ∃ s ∈ spans, inSpan n s
    · rw [blankSpans_getElem?_zero spans _ n (by omega) (Or.inl hsp),
        blankSpans_getElem?_zero spans audio n (by omega) (Or.inl hsp)]
    · push_neg at hsp
      exact blankSpans_getElem?_of_not_inSpan spans _ n (by omega) hsp
  · have e1 : (blankSpans (blankSpans audio spans) spans)[n]? = none :=
      List.getElem?_eq_none (by omega)
    have e2 : (blankSpans audio spans)[n]? = none :=
      List.getElem?_eq_none (by omega)
    rw [e1, e2]

theorem idempotence_c9_witness :
    blankSpans (blankSpans [1, 2, 3, 4] [⟨1, 3⟩]) [⟨1, 3⟩] = blankSpans [1, 2, 3, 4] [⟨1, 3⟩] :=
  idempotence_c9 [1, 2, 3, 4] [⟨1, 3⟩] (by decide)

/-- C6: if every encoder pair fails, the Negotiator attempts every pair of
the Cartesian product exactly once, in outer-loop-video inner-loop-audio
order, and only then reports the unrecoverable error (the `none` outcome:
no rename of a partial output ever happens). -/
theorem negotiator_exhaustion_c6 (ok : String → String → Bool)
    (h : ∀ v ∈ video_encoders, ∀ a ∈ audio_encoders, ok v a = false) :
    overlay_clean_audio ok = (codecPairs, none) ∧ codecPairs.Nodup := by
  have h1 := h "copy" (by simp [video_encoders]) "aac" (by simp [audio_encoders])
  have h2 := h "copy" (by simp [video_encoders]) "libmp3lame" (by simp [audio_encoders])
  have h3 := h "copy" (by simp [video_encoders]) "libopus" (by simp [audio_encoders])
  have h4 := h "libx264" (by simp [video_encoders]) "aac" (by simp [audio_encoders])
  have h5 := h "libx264" (by simp [video_encoders]) "libmp3lame" (by simp [audio_encoders])
  have h6 := h "libx264" (by simp [video_encoders]) "libopus" (by simp [audio_encoders])
  refine ⟨?_, by decide⟩
  simp [overlay_clean_audio, tryVideoCodecs, tryAudioCodecs, video_encoders, audio_encoders,
    codecPairs, h1, h2, h3, h4, h5, h6]

theorem negotiator_exhaustion_c6_witness :
    overlay_clean_audio (fun _ _ => false) = (codecPairs, none) ∧ codecPairs.Nodup :=
  negotiator_exhaustion_c6 (fun _ _ => false) (fun _ _ _ _ => rfl)

/-- C7: if the pair at position k of the documented order is the first to
succeed, the Negotiator attempts exactly the first k+1 pairs and no later
ones, and stops with that pair as the finalized (renamed) output. -/
theorem negotiator_short_circuit_c7 (ok : String → String → Bool) (k : Nat)
    (p : String × String) (hp : codecPairs[k]? = some p) (hsucc : ok p.1 p.2 = true)
    (hprev : ∀ q ∈ codecPairs.take k, ok q.1 q.2 = false) :
    overlay_clean_audio ok = (codecPairs.take (k + 1), some p) := by
  have hk : k < 6 := by
    by_contra hk
    rw [List.getElem?_eq_none (by simp [codecPairs]; omega)] at hp
    exact Option.noConfusion hp
  interval_cases k
  · have hp2 : some ("copy", "aac") = some p := by rw [← hp]; rfl
    obtain rfl := (Option.some.inj hp2).symm
    simp only [] at hsucc
    simp [overlay_clean_audio, tryVideoCodecs, tryAudioCodecs, video_encoders, audio_encoders,
      codecPairs, hsucc]
  · have hp2 : some ("copy", "libmp3lame") = some p := by rw [← hp]; rfl
    obtain rfl := (Option.some.inj hp2).symm
    have f1 : ok "copy" "aac" = false := hprev ("copy", "aac") (by decide)
    simp only [] at hsucc
    simp [overlay_clean_audio, tryVideoCodecs, tryAudioCodecs, video_encoders, audio_encoders,
      codecPairs, f1, hsucc]
  · have hp2 : some ("copy", "libopus") = some p := by rw [← hp]; rfl
    obtain rfl := (Option.some.inj hp2).symm
    have f1 : ok "copy" "aac" = false := hprev ("copy", "aac") (by decide)
    have f2 : ok "copy" "libmp3lame" = false := hprev ("copy", "libmp3lame") (by decide)
    simp only [] at hsucc
    simp [overlay_clean_audio, tryVideoCodecs, tryAudioCodecs, video_encoders, audio_encoders,
      codecPairs, f1, f2, hsucc]
  · have hp2 : some ("libx264", "aac") = some p := by rw [← hp]; rfl
    obtain rfl := (Option.some.inj hp2).symm
    have f1 : ok "copy" "aac" = false := hprev ("copy", "aac") (by decide)
    have f2 : ok "copy" "libmp3lame" = false := hprev ("copy", "libmp3lame") (by decide)
    have f3 : ok "copy" "libopus" = false := hprev ("copy", "libopus") (by decide)
    simp only [] at hsucc
    simp [overlay_clean_audio, tryVideoCodecs, tryAudioCodecs, video_encoders, audio_encoders,
      codecPairs, f1, f2, f3, hsucc]
  · have hp2 : some ("libx264", "libmp3lame") = some p := by rw [← hp]; rfl
    obtain rfl := (Option.some.inj hp2).symm
    have f1 : ok "copy" "aac" = false := hprev ("copy", "aac") (by decide)
    have f2 : ok "copy" "libmp3lame" = false := hprev ("copy", "libmp3lame") (by decide)
    have f3 : ok "copy" "libopus" = false := hprev ("copy", "libopus") (by decide)
    have f4 : ok "libx264" "aac" = false := hprev ("libx264", "aac") (by decide)
    simp only [] at hsucc
    simp [overlay_clean_audio, tryVideoCodecs, tryAudioCodecs, video_encoders, audio_encoders,
      codecPairs, f1, f2, f3, f4, hsucc]
  · have hp2 : some ("libx264", "libopus") = some p := by rw [← hp]; rfl
    obtain rfl := (Option.some.inj hp2).symm
    have f1 : ok "copy" "aac" = false := hprev ("copy", "aac") (by decide)
    have f2 : ok "copy" "libmp3lame" = false := hprev ("copy", "libmp3lame") (by decide)
    have f3 : ok "copy" "libopus" = false := hprev ("copy", "libopus") (by decide)
    have f4 : ok "libx264" "aac" = false := hprev ("libx264", "aac") (by decide)
    have f5 : ok "libx264" "libmp3lame" = false := hprev ("libx264", "libmp3lame") (by decide)
    simp only [] at hsucc
    simp [overlay_clean_audio, tryVideoCodecs, tryAudioCodecs, video_encoders, audio_encoders,
      codecPairs, f1, f2, f3, f4, f5, hsucc]

theorem negotiator_short_circuit_c7_witness :
    overlay_clean_audio (fun v a => v == "copy" && a == "libopus") =
      ([("copy", "aac"), ("copy", "libmp3lame"), ("copy", "libopus")],
        some ("copy", "libopus")) := by
  have h := negotiator_short_circuit_c7 (fun v a => v == "copy" && a == "libopus") 2
    ("copy", "libopus") rfl (by decide) (by decide)
  simpa [codecPairs] using h

/- Helper lemmas about the newline split of the denylist file. -/

lemma splitNl_ne_nil (cs : List Char) : splitNl cs ≠ [] := by
  cases cs with
  | nil => simp [splitNl]
  | cons c rest =>
    simp only [splitNl]
    split
    · simp
    · split <;> simp

lemma splitNl_append_newline (x y : List Char) :
    splitNl (x ++ '\n' :: y) = splitNl x ++ splitNl y := by
  induction x with
  | nil => simp [splitNl]
  | cons c x ih =>
    by_cases h : c = '\n'
    · subst h
      simp [splitNl, ih]
    · have hne := splitNl_ne_nil x
      cases hsp : splitNl x with
      | nil => exact absurd hsp hne
      | cons t ts => simp [splitNl, h, ih, hsp]

/-- C10: if the denylist file contents end with a trailing newline or
contain a blank line, splitting on newlines yields an empty-string
denylist entry; the empty string is a substring of every token, so the
matcher accepts every word and blank_audio_word_level silences every word
of the transcript. -/
theorem empty_denylist_entry_c10 (content : List Char)
    (h : (∃ p, content = p ++ ['\n']) ∨ ∃ p q, content = p ++ '\n' :: '\n' :: q) :
    [] ∈ splitNl content
    ∧ (∀ t : List Char, matchesCurse t (splitNl content) = true)
    ∧ (∀ (audio : List Int) (words : List PyWord),
        blank_audio_word_level audio words (splitNl content) =
          words.foldl (fun acc wd => applySpan acc (wordSpan wd)) audio) := by
  have hmem : [] ∈ splitNl content := by
    rcases h with ⟨p, rfl⟩ | ⟨p, q, rfl⟩
    · rw [splitNl_append_newline]
      simp [splitNl]
    · rw [splitNl_append_newline]
      simp [splitNl]
  have hall : ∀ t : List Char, matchesCurse t (splitNl content) = true := by
    intro t
    simp only [matchesCurse, List.any_eq_true, decide_eq_true_eq]
    exact ⟨[], hmem, List.nil_infix⟩
  refine ⟨hmem, hall, ?_⟩
  intro audio words
  simp only [blank_audio_word_level, hall, if_true]

theorem empty_denylist_entry_c10_witness :
    [] ∈ splitNl "damn\n".toList
    ∧ matchesCurse "hello".toList (splitNl "damn\n".toList) = true :=
  have h := empty_denylist_entry_c10 "damn\n".toList (Or.inl ⟨"damn".toList, rfl⟩)
  ⟨h.1, h.2.1 "hello".toList⟩

/- Helper lemmas about file removal and distinctness of the derived
   paths. -/

lemma mem_removeFile (fs : List String) (p q : String) :
    q ∈ removeFile fs p ↔ q ∈ fs ∧ q ≠ p := by
  unfold removeFile
  split
  · simp [List.mem_filter]
  · case isFalse hnp =>
    constructor
    · intro hq
      exact ⟨hq, fun he => hnp (he ▸ hq)⟩
    · intro hq
      exact hq.1

lemma mem_cleanup_files (fs : List String) (a b q : String) :
    q ∈ cleanup_files fs [a, b] ↔ q ∈ fs ∧ q ≠ a ∧ q ≠ b := by
  show q ∈ removeFile (removeFile fs a) b ↔ _
  rw [mem_removeFile, mem_removeFile]
  tauto

lemma append_ne_of_ne (b : String) (s t : String) (h : s ≠ t) : b ++ s ≠ b ++ t := by
  intro he
  apply h
  apply String.ext
  have hd := congrArg String.data he
  rw [String.data_append, String.data_append] at hd
  exact List.append_cancel_left hd

/-- C8: on every exit path of the pipeline, whether the run completes or
any stage from extraction through export raises, the two working audio
temp files are absent after the guaranteed cleanup block, and the final
cleaned video artifact is never removed: it is present afterwards exactly
when the run succeeded or it already existed beforehand. -/
theorem pipeline_cleanup_c8 (env : StageFails) (base : String) (fs0 : List String) :
    (base ++ "_extracted_audio.wav") ∉ (pyMain env base fs0).1
    ∧ (base ++ "_clean_audio.wav") ∉ (pyMain env base fs0).1
    ∧ ((base ++ "_cleaned.mp4") ∈ (pyMain env base fs0).1 ↔
        ((pyMain env base fs0).2 = true ∨ (base ++ "_cleaned.mp4") ∈ fs0)) := by
  obtain ⟨e1, e2, e3, e4, e5, e6⟩ := env
  have n1 : (base ++ "_cleaned.mp4") ≠ (base ++ "_extracted_audio.wav") :=
    append_ne_of_ne base _ _ (by decide)
  have n2 : (base ++ "_cleaned.mp4") ≠ (base ++ "_clean_audio.wav") :=
    append_ne_of_ne base _ _ (by decide)
  have n3 : (base ++ "_cleaned.mp4") ≠ (base ++ "_word_transcript.json") :=
    append_ne_of_ne base _ _ (by decide)
  cases e1 <;> cases e2 <;> cases e3 <;> cases e4 <;> cases e5 <;> cases e6 <;>
    simp [pyMain, mem_cleanup_files, n1, n2, n3]
